import Mathlib

/-!
Shallow embedding of the peer-to-peer chat node in `src/p2p/node.py` (class
`Node`), together with proofs about its gossip, registry, and discovery
behaviour.

Modelling conventions:
- Python dicts become association lists with Python's semantics (first-match
  lookup, in-place overwrite preserving insertion order, pop by key).
- A JSON message object becomes a record `Msg` of optional fields; `none`
  stands for an absent (or `null`) field, matching `dict.get`.
- The side effects of a call (callback invocations, socket writes, socket
  closes, dial attempts) are returned as an explicit list of `Event`s, in
  program order; a successful `sendall` is one `Event.sendTo`.
- A socket is a `Conn` carrying an identity `sid`, the stored remote address,
  and an `alive` flag; `sendall` succeeds exactly on live sockets and raises
  on dead ones, which is how the code's try/except around sends is modelled.
- `uuid.uuid4()` and `time.time()` become parameters (`new_id`, `now`).
- Peer-map keys are `Option String` because the registry key is
  `hello.get("peer_id")`, which may be absent (`None`) in Python.
-/

namespace P2P

/-- Python dictionary lookup on an association list: value at the first entry
whose key matches, mirroring `dict.get(k)` (absent key gives `none`). -/
def dlookup {κ β : Type} [DecidableEq κ] : List (κ × β) → κ → Option β
  | [], _ => none
  | (a, b) :: t, k => if a = k then some b else dlookup t k

/-- Python dictionary store `d[k] = v`: if the key is present the entry is
overwritten in place (insertion order kept, as in CPython), else appended. -/
def dinsert {κ β : Type} [DecidableEq κ] : List (κ × β) → κ → β → List (κ × β)
  | [], k, v => [(k, v)]
  | (a, b) :: t, k, v =>
    if a = k then (k, v) :: t else (a, b) :: dinsert t k v

/-- Python `d.pop(k, None)`: removes the entry with the given key. -/
def dpop {κ β : Type} [DecidableEq κ] : List (κ × β) → κ → List (κ × β)
  | [], _ => []
  | (a, b) :: t, k => if a = k then dpop t k else (a, b) :: dpop t k

/-- Python `set.discard(x)` on a list-modelled set. -/
def sdel {α : Type} [DecidableEq α] : List α → α → List α
  | [], _ => []
  | a :: t, x => if a = x then sdel t x else a :: sdel t x

/-- Truthiness of an optional string, as Python evaluates `if x:`:
`None` and the empty string are falsy. -/
def truthy : Option String → Bool
  | none => false
  | some x => decide (x ≠ "")

/-- Python `(h or 0)` for an optional integer field: `None` and `0` are falsy
and give `0`, any other integer gives itself. -/
def pyOr0 : Option Int → Int
  | none => 0
  | some x => if x = 0 then 0 else x

/-- A JSON wire message as the code reads it with `dict.get`: every field is
optional. `fromU` is the JSON field `"from"` and `toU` the field `"to"`;
`data` is an opaque JSON object modelled as a key/value list. -/
structure Msg where
  type : Option String := none
  id : Option String := none
  channel : Option String := none
  fromU : Option String := none
  peer_id : Option String := none
  toU : Option String := none
  text : Option String := none
  ctrl : Option String := none
  data : Option (List (String × String)) := none
  ts : Option Int := none
  hops : Option Int := none
  tcp_port : Option Int := none
  username : Option String := none
deriving DecidableEq

/-- A TCP socket together with the stored remote address, as the registry
value `(sock, addr)`. `sid` is the socket's identity (for close events);
`alive` says whether `sendall` on it succeeds or raises. -/
structure Conn where
  sid : Nat
  alive : Bool
  addrHost : String := ""
  addrPort : Int := 0
deriving DecidableEq

/-- An observable side effect of a node operation, in program order:
callback invocations (`deliver` is `on_message`, `deliverControl` is
`on_control`, `deliverDirect` is `on_direct`), a successful `sendall` to a
registered peer, a socket close, the responder's hello reply, a TCP dial
attempt, and the spawn of an outbound session thread. -/
inductive Event where
  | deliver (channel fromU text : Option String)
  | deliverControl (fromU ctrl : Option String) (data : List (String × String))
  | deliverDirect (fromU : Option String) (toU : String) (text : Option String)
  | sendTo (pid : Option String) (m : Msg)
  | sockClose (sid : Nat)
  | helloSent (sid : Nat)
  | dial (host : String) (port : Int)
  | spawnSession (host : String) (port : Int)
deriving DecidableEq

/-- The mutable state of a `Node`: configuration fields set in `__init__`,
the peer map `_peers : peer_id → (sock, addr)`, the two username maps,
the pending-connect set `_connecting`, the dedup set `_seen_messages`, the
presence of the three optional callbacks, and the stop flag. -/
structure NodeState where
  username : String
  channel : String
  peer_id : String
  listen_host : String := "0.0.0.0"
  listen_port : Int := 0
  peers : List (Option String × Conn) := []
  peer_usernames : List (Option String × String) := []
  user_to_peer : List (String × Option String) := []
  connecting : List (String × Int) := []
  seen : List String := []
  hasOnMessage : Bool := true
  hasOnControl : Bool := true
  hasOnDirect : Bool := true
  stopped : Bool := false
deriving DecidableEq

/-- `Node._is_seen`. -/
def is_seen (s : NodeState) (mid : String) : Bool :=
  decide (mid ∈ s.seen)

/-- `Node._mark_seen` (set insertion). -/
def mark_seen (s : NodeState) (mid : String) : NodeState :=
  if mid ∈ s.seen then s else { s with seen := mid :: s.seen }

/-- One iteration of `Node._fanout`'s loop over the snapshot: skip the
excluded peer (`if exclude_peer and pid == exclude_peer`), send if the
socket is live, else close the socket and pop the peer from the live map. -/
def fanoutStep (m : Msg) (excl : Option String) (acc : NodeState × List Event) :
    Option String × Conn → NodeState × List Event
  | (pid, c) =>
    if truthy excl = true ∧ pid = excl then acc
    else if c.alive = true then (acc.1, acc.2 ++ [Event.sendTo pid m])
    else ({ acc.1 with peers := dpop acc.1.peers pid },
          acc.2 ++ [Event.sockClose c.sid])

/-- `Node._fanout`: snapshot the peer map under the lock, then send the
serialized message to each non-excluded peer, evicting peers whose send
fails. -/
def fanout (s : NodeState) (m : Msg) (excl : Option String) :
    NodeState × List Event :=
  s.peers.foldl (fanoutStep m excl) (s, [])

/-- `Node._handle_message`: dedup-and-gossip for `chat`, point-to-point
delivery for `control` and `direct_chat`, ignore anything else. -/
def handle_message (s : NodeState) (m : Msg) (from_peer : Option String) :
    NodeState × List Event :=
  if m.type = some "chat" then
    match m.id with
    | none => (s, [])
    | some mid =>
      if mid = "" ∨ is_seen s mid = true then (s, [])
      else
        let s1 := mark_seen s mid
        let evs1 := if s.hasOnMessage = true ∧ m.channel = some s.channel then
            [Event.deliver m.channel m.fromU m.text] else []
        let m2 := { m with hops := some (pyOr0 m.hops + 1) }
        let r := fanout s1 m2 from_peer
        (r.1, evs1 ++ r.2)
  else if m.type = some "control" then
    if m.toU = some s.username ∧ s.hasOnControl = true then
      (s, [Event.deliverControl m.fromU m.ctrl (m.data.getD [])])
    else (s, [])
  else if m.type = some "direct_chat" then
    if m.toU = some s.username ∧ s.hasOnDirect = true then
      (s, [Event.deliverDirect m.fromU s.username m.text])
    else (s, [])
  else (s, [])

/-- The chat envelope `Node.send` constructs (`uuid` and clock passed in). -/
def chat_envelope (s : NodeState) (new_id : String) (now : Int)
    (text : String) : Msg :=
  { type := some "chat", id := some new_id, channel := some s.channel,
    fromU := some s.username, peer_id := some s.peer_id,
    text := some text, ts := some now, hops := some 0 }

/-- `Node.send`: build the envelope, mark its id seen before the fanout,
fan out to all current connections, then deliver locally. -/
def send (s : NodeState) (new_id : String) (now : Int) (text : String) :
    NodeState × List Event :=
  let m := chat_envelope s new_id now text
  let s1 := mark_seen s new_id
  let r := fanout s1 m none
  (r.1, r.2 ++ (if s.hasOnMessage = true then
      [Event.deliver (some s.channel) (some s.username) (some text)] else []))

/-- The snapshot `Node.status` returns. -/
structure Status where
  username : String
  channel : String
  listen_host : String
  listen_port : Int
  peer_id : String
  peers : Nat
deriving DecidableEq

/-- `Node.status`. -/
def status (s : NodeState) : Status :=
  { username := s.username, channel := s.channel,
    listen_host := s.listen_host, listen_port := s.listen_port,
    peer_id := s.peer_id, peers := s.peers.length }

/-- The control envelope `Node.send_control` constructs (`data or {}`). -/
def control_envelope (s : NodeState) (to_username ctrl : String)
    (data : Option (List (String × String))) (now : Int) : Msg :=
  { type := some "control", ctrl := some ctrl, fromU := some s.username,
    toU := some to_username, channel := some s.channel,
    data := some (data.getD []), ts := some now }

/-- The direct-chat envelope `Node.send_direct` constructs. -/
def direct_envelope (s : NodeState) (to_username text : String)
    (now : Int) : Msg :=
  { type := some "direct_chat", fromU := some s.username,
    toU := some to_username, channel := some s.channel,
    text := some text, ts := some now }

/-- `Node.send_control`: username-index lookup (`if not pid: return False`),
then peer-map lookup under the lock, then `sendall` of the control
envelope, returning whether the send succeeded. -/
def send_control (s : NodeState) (to_username ctrl : String)
    (data : Option (List (String × String))) (now : Int) :
    Bool × List Event :=
  match dlookup s.user_to_peer to_username with
  | none => (false, [])
  | some pid =>
    if truthy pid = true then
      match dlookup s.peers pid with
      | none => (false, [])
      | some c =>
        if c.alive = true then
          (true, [Event.sendTo pid (control_envelope s to_username ctrl data now)])
        else (false, [])
    else (false, [])

/-- `Node.send_direct`: same lookup contract as `send_control`, sending a
`direct_chat` envelope. -/
def send_direct (s : NodeState) (to_username text : String) (now : Int) :
    Bool × List Event :=
  match dlookup s.user_to_peer to_username with
  | none => (false, [])
  | some pid =>
    if truthy pid = true then
      match dlookup s.peers pid with
      | none => (false, [])
      | some c =>
        if c.alive = true then
          (true, [Event.sendTo pid (direct_envelope s to_username text now)])
        else (false, [])
    else (false, [])

/-- One line read from a peer socket: end of stream, a line whose
`json.loads` raises, or a parsed message. -/
inductive WireLine where
  | eof
  | badJson
  | msg (m : Msg)
deriving DecidableEq

/-- Whether a first line is a well-formed hello for this node's channel
(the guard at the top of `Node._peer_conn_loop`). -/
def hello_ok (s : NodeState) : WireLine → Bool
  | WireLine.msg m => decide (m.type = some "hello" ∧ m.channel = some s.channel)
  | _ => false

/-- Registration block of `Node._peer_conn_loop`: insert the peer under the
lock and, when the hello carried a truthy username, update both username
maps in the same critical section. -/
def register_peer (s : NodeState) (pid : Option String)
    (uname : Option String) (c : Conn) : NodeState :=
  let s1 := { s with peers := dinsert s.peers pid c }
  match uname with
  | some u =>
    if u ≠ "" then
      { s1 with peer_usernames := dinsert s1.peer_usernames pid u,
                user_to_peer := dinsert s1.user_to_peer u pid }
    else s1
  | none => s1

/-- Teardown block (`finally`) of `Node._peer_conn_loop`: when the session
had a truthy `peer_id`, pop it from the peer map, and drop the username
mapping only if it still points at this `peer_id`. -/
def session_teardown (s : NodeState) (pid : Option String) : NodeState :=
  if truthy pid = true then
    let s1 := { s with peers := dpop s.peers pid }
    match dlookup s1.peer_usernames pid with
    | none => s1
    | some uname =>
      let s2 := { s1 with peer_usernames := dpop s1.peer_usernames pid }
      if uname ≠ "" ∧ dlookup s2.user_to_peer uname = some pid then
        { s2 with user_to_peer := dpop s2.user_to_peer uname }
      else s2
  else s

/-- Message loop of `Node._peer_conn_loop`: read lines until end of stream,
skipping lines whose parse raises, handing each parsed message to
`handle_message` with the session's `peer_id`. -/
def read_loop : NodeState → Option String → List WireLine →
    NodeState × List Event
  | s, _, [] => (s, [])
  | s, _, WireLine.eof :: _ => (s, [])
  | s, fp, WireLine.badJson :: rest => read_loop s fp rest
  | s, fp, WireLine.msg m :: rest =>
    let r1 := handle_message s m fp
    let r2 := read_loop r1.1 fp rest
    (r2.1, r1.2 ++ r2.2)

/-- `Node._peer_conn_loop` in responder role (`init_hello is None`), over
the given inbound lines: validate the first line as a hello for this
channel (else drop the connection unregistered), reply with our hello,
register, pump the read loop, then tear down; the `finally` block always
closes the socket. -/
def peer_conn_loop (s : NodeState) (c : Conn) (first : WireLine)
    (rest : List WireLine) : NodeState × List Event :=
  match first with
  | WireLine.msg m =>
    if m.type = some "hello" ∧ m.channel = some s.channel then
      let s1 := register_peer s m.peer_id m.username c
      let r := read_loop s1 m.peer_id rest
      (session_teardown r.1 m.peer_id,
       Event.helloSent c.sid :: (r.2 ++ [Event.sockClose c.sid]))
    else (s, [Event.sockClose c.sid])
  | _ => (s, [Event.sockClose c.sid])

/-- `Node.stop`: set the stop flag, close every tracked socket, clear the
peer map (the username maps are left as they are). -/
def stop (s : NodeState) : NodeState × List Event :=
  ({ s with stopped := true, peers := [] },
   s.peers.map (fun it => Event.sockClose it.2.sid))

/-- Insertion into the pending-connect set `_connecting`. -/
def add_pending (s : NodeState) (host : String) (port : Int) : NodeState :=
  if (host, port) ∈ s.connecting then s
  else { s with connecting := (host, port) :: s.connecting }

/-- Removal from the pending-connect set (`set.discard` in the `finally`). -/
def remove_pending (s : NodeState) (host : String) (port : Int) : NodeState :=
  { s with connecting := sdel s.connecting (host, port) }

/-- `Node._connect_to_peer`: no-op if the address is already being dialed;
otherwise mark it pending, dial (spawning an initiator session on success,
abandoning the attempt on failure), and always discard the pending marker
in the `finally`, on success and failure alike. `dial_ok` is whether
`socket.create_connection` succeeded. -/
def connect_to_peer (s : NodeState) (host : String) (port : Int)
    (dial_ok : Bool) : NodeState × List Event :=
  if (host, port) ∈ s.connecting then (s, [])
  else
    let s1 := add_pending s host port
    let evs := Event.dial host port ::
      (if dial_ok then [Event.spawnSession host port] else [])
    (remove_pending s1 host port, evs)

/-- The dial target one iteration of `Node._discovery_rx_loop` derives from
an inbound UDP packet: `none` when the packet fails to parse (`pkt = none`),
is not a `discover`, mismatches the channel, carries this node's own
`peer_id`, or lacks a positive integer `tcp_port`; otherwise
`(sender_host, announced_tcp_port)`. A non-integer `tcp_port` (rejected by
the code's `isinstance` check) is subsumed by the field's typing. -/
def discovery_dial_target (s : NodeState) (pkt : Option Msg) (host : String) :
    Option (String × Int) :=
  match pkt with
  | none => none
  | some m =>
    if m.type = some "discover" ∧ m.channel = some s.channel ∧
        m.peer_id ≠ some s.peer_id then
      match m.tcp_port with
      | some p => if p > 0 then some (host, p) else none
      | none => none
    else none

/-- One iteration of `Node._discovery_rx_loop`: call `_connect_to_peer` on
the dial target when there is one. -/
def discovery_rx_step (s : NodeState) (pkt : Option Msg) (host : String)
    (dial_ok : Bool) : NodeState × List Event :=
  match discovery_dial_target s pkt host with
  | some t => connect_to_peer s t.1 t.2 dial_ok
  | none => (s, [])

/-- The event trace `Node._fanout` produces over a snapshot: one successful
send per live non-excluded peer, one socket close per dead non-excluded
peer, in snapshot order. -/
def fanoutEvents (m : Msg) (excl : Option String) :
    List (Option String × Conn) → List Event
  | [] => []
  | (pid, c) :: rest =>
    if truthy excl = true ∧ pid = excl then fanoutEvents m excl rest
    else if c.alive = true then Event.sendTo pid m :: fanoutEvents m excl rest
    else Event.sockClose c.sid :: fanoutEvents m excl rest

/-- Number of `on_message` invocations in an event list. -/
def countDeliver (evs : List Event) : Nat :=
  evs.countP (fun e => match e with
    | Event.deliver _ _ _ => true
    | _ => false)

/-- The spec's registry invariant: the username index never points to a
`peer_id` absent from the peer map. -/
def uname_index_consistent (s : NodeState) : Prop :=
  ∀ u p, dlookup s.user_to_peer u = some p → (dlookup s.peers p).isSome = true

/-- The username index agrees with the peer-username map: each indexed
username is the one recorded for its `peer_id`. -/
def uname_index_inverse (s : NodeState) : Prop :=
  ∀ u p, dlookup s.user_to_peer u = some p → dlookup s.peer_usernames p = some u

/-- The username index has no entry under the empty username (registration
only ever indexes truthy usernames). -/
def no_empty_uname (s : NodeState) : Prop :=
  dlookup s.user_to_peer "" = none

/-- A live registered session for a username: the index resolves it to a
truthy `peer_id` whose registry entry holds a live socket (the condition
under which `send_control`/`send_direct` find a usable socket and
`sendall` succeeds). -/
def live_session (s : NodeState) (u : String) : Bool :=
  match dlookup s.user_to_peer u with
  | none => false
  | some pid =>
    truthy pid && (match dlookup s.peers pid with
      | none => false
      | some c => c.alive)

/-! Concrete states and messages used to instantiate the theorems below. -/

/-- A live socket. -/
def w_conn : Conn := { sid := 1, alive := true }

/-- A dead socket: `sendall` on it raises. -/
def w_conn_dead : Conn := { sid := 2, alive := false }

/-- A node with one live registered peer, username `bob`. -/
def w_state : NodeState :=
  { username := "alice", channel := "ch", peer_id := "alice-1",
    peers := [(some "b1", w_conn)], peer_usernames := [(some "b1", "bob")],
    user_to_peer := [("bob", some "b1")] }

/-- A node with an empty registry. -/
def w_state7 : NodeState :=
  { username := "alice", channel := "ch", peer_id := "alice-1" }

/-- A node with one live peer and one dead peer. -/
def w_state5 : NodeState :=
  { username := "alice", channel := "ch", peer_id := "alice-1",
    peers := [(some "b1", w_conn), (some "c1", w_conn_dead)] }

/-- A node whose only registered peer has a dead socket and an entry in the
username index. -/
def ce_state : NodeState :=
  { username := "alice", channel := "ch", peer_id := "alice-1",
    peers := [(some "p1", w_conn_dead)], peer_usernames := [(some "p1", "bob")],
    user_to_peer := [("bob", some "p1")] }

/-- An inbound chat envelope on channel `ch`. -/
def w_chat : Msg :=
  { type := some "chat", id := some "mid1", channel := some "ch",
    fromU := some "bob", peer_id := some "b1", text := some "hi",
    hops := some 0 }

/-- A chat envelope whose `id` field is absent. -/
def w_blank : Msg := { type := some "chat", channel := some "ch" }

/-- A hello for a different channel. -/
def w_bad_hello : Msg :=
  { type := some "hello", channel := some "other", peer_id := some "x1",
    username := some "mallory" }

/-- A discover packet matching the channel, from a foreign peer, announcing
`tcp_port` zero. -/
def d_pkt : Msg :=
  { type := some "discover", channel := some "ch", peer_id := some "bob-2",
    username := some "bob", tcp_port := some 0 }

/-- A discover packet matching the channel, from a foreign peer, announcing
a usable port. -/
def d_pkt_good : Msg :=
  { type := some "discover", channel := some "ch", peer_id := some "bob-2",
    username := some "bob", tcp_port := some 9000 }

/-! Helper lemmas about the dictionary model and the fanout loop. -/

theorem dlookup_dpop {κ β : Type} [DecidableEq κ] (l : List (κ × β)) (q k : κ) :
    dlookup (dpop l q) k = if k = q then none else dlookup l k := by
  by_cases hkq : k = q
  · subst hkq
    rw [if_pos rfl]
    induction l with
    | nil => rfl
    | cons hd t ih =>
      obtain ⟨a, b⟩ := hd
      by_cases hak : a = k
      · simp only [dpop, if_pos hak]
        exact ih
      · simp only [dpop, if_neg hak, dlookup]
        exact ih
  · rw [if_neg hkq]
    induction l with
    | nil => rfl
    | cons hd t ih =>
      obtain ⟨a, b⟩ := hd
      by_cases haq : a = q
      · have hak : ¬ a = k := fun h => hkq (h.symm.trans haq)
        simp only [dpop, if_pos haq, dlookup, if_neg hak]
        exact ih
      · simp only [dpop, if_neg haq, dlookup]
        by_cases hak : a = k
        · rw [if_pos hak, if_pos hak]
        · rw [if_neg hak, if_neg hak]
          exact ih

theorem dlookup_dinsert {κ β : Type} [DecidableEq κ]
    (l : List (κ × β)) (q k : κ) (v : β) :
    dlookup (dinsert l q v) k = if k = q then some v else dlookup l k := by
  induction l with
  | nil =>
    by_cases hkq : k = q
    · simp only [dinsert, dlookup, if_pos hkq, if_pos (hkq.symm)]
    · simp only [dinsert, dlookup, if_neg hkq,
        if_neg (fun h : q = k => hkq h.symm)]
  | cons hd t ih =>
    obtain ⟨a, b⟩ := hd
    by_cases haq : a = q
    · simp only [dinsert, if_pos haq, dlookup]
      by_cases hkq : k = q
      · rw [if_pos (hkq.symm), if_pos hkq]
      · have hak : ¬ a = k := fun h => hkq (h.symm.trans haq)
        rw [if_neg (fun h : q = k => hkq h.symm), if_neg hkq, if_neg hak]
  
    · simp only [dinsert, if_neg haq, dlookup]
      by_cases hak : a = k
      · have hkq : ¬ k = q := fun h => haq (hak.trans h)
        rw [if_pos hak, if_neg hkq, if_pos hak]
      · rw [if_neg hak, ih, if_neg hak]

theorem sdel_mem {α : Type} [DecidableEq α] (l : List α) (x y : α) :
    y ∈ sdel l x ↔ y ∈ l ∧ y ≠ x := by
  induction l with
  | nil => simp [sdel]
  | cons a t ih =>
    by_cases hax : a = x
    · subst hax
      have hs : sdel (a :: t) a = sdel t a := by
        simp [sdel]
      rw [hs, ih]
      simp only [List.mem_cons]
      constructor
      · rintro ⟨hy, hne⟩
        exact ⟨Or.inr hy, hne⟩
      · rintro ⟨hy | hy, hne⟩
        · exact absurd hy hne
        · exact ⟨hy, hne⟩
    · simp only [sdel, if_neg hax, List.mem_cons, ih]
      constructor
      · rintro (rfl | ⟨hy, hne⟩)
        · exact ⟨Or.inl rfl, hax⟩
        · exact ⟨Or.inr hy, hne⟩
      · rintro ⟨rfl | hy, hne⟩
        · exact Or.inl rfl
        · exact Or.inr ⟨hy, hne⟩

theorem fanout_go_events (m : Msg) (excl : Option String) :
    ∀ (items : List (Option String × Conn)) (s : NodeState) (evs : List Event),
    (items.foldl (fanoutStep m excl) (s, evs)).2
      = evs ++ fanoutEvents m excl items := by
  intro items
  induction items with
  | nil =>
    intro s evs
    simp [fanoutEvents]
  | cons hd rest ih =>
    intro s evs
    obtain ⟨q0, c0⟩ := hd
    by_cases h1 : truthy excl = true ∧ q0 = excl
    · simp only [List.foldl_cons, fanoutStep, fanoutEvents, if_pos h1]
      exact ih s evs
    · by_cases h2 : c0.alive = true
      · simp only [List.foldl_cons, fanoutStep, fanoutEvents, if_neg h1, if_pos h2]
        rw [ih]
        simp
      · simp only [List.foldl_cons, fanoutStep, fanoutEvents, if_neg h1, if_neg h2]
        rw [ih]
        simp

theorem fanout_go_state_eta (m : Msg) (excl : Option String) :
    ∀ (items : List (Option String × Conn)) (s : NodeState) (evs : List Event),
    (items.foldl (fanoutStep m excl) (s, evs)).1
      = { s with peers := (items.foldl (fanoutStep m excl) (s, evs)).1.peers } := by
  intro items
  induction items with
  | nil =>
    intro s evs
    rfl
  | cons hd rest ih =>
    intro s evs
    obtain ⟨q0, c0⟩ := hd
    by_cases h1 : truthy excl = true ∧ q0 = excl
    · simp only [List.foldl_cons, fanoutStep, if_pos h1]
      exact ih s evs
    · by_cases h2 : c0.alive = true
      · simp only [List.foldl_cons, fanoutStep, if_neg h1, if_pos h2]
        exact ih s _
      · simp only [List.foldl_cons, fanoutStep, if_neg h1, if_neg h2]
        exact ih _ _

theorem fanout_go_state_allAlive (m : Msg) (excl : Option String) :
    ∀ (items : List (Option String × Conn)) (s : NodeState) (evs : List Event),
    (∀ it ∈ items, it.2.alive = true) →
    (items.foldl (fanoutStep m excl) (s, evs)).1 = s := by
  intro items
  induction items with
  | nil =>
    intro s evs _
    rfl
  | cons hd rest ih =>
    intro s evs hal
    obtain ⟨q0, c0⟩ := hd
    have htl : ∀ it ∈ rest, it.2.alive = true :=
      fun x hx => hal x (List.mem_cons_of_mem _ hx)
    by_cases h1 : truthy excl = true ∧ q0 = excl
    · simp only [List.foldl_cons, fanoutStep, if_pos h1]
      exact ih s evs htl
    · have h2 : c0.alive = true := hal (q0, c0) (List.mem_cons_self _ _)
      simp only [List.foldl_cons, fanoutStep, if_neg h1, if_pos h2]
      exact ih s _ htl

theorem fanout_go_lookup_none (m : Msg) (excl : Option String) :
    ∀ (items : List (Option String × Conn)) (s : NodeState) (evs : List Event)
    (k : Option String), dlookup s.peers k = none →
    dlookup (items.foldl (fanoutStep m excl) (s, evs)).1.peers k = none := by
  intro items
  induction items with
  | nil =>
    intro s evs k h
    exact h
  | cons hd rest ih =>
    intro s evs k h
    obtain ⟨q0, c0⟩ := hd
    by_cases h1 : truthy excl = true ∧ q0 = excl
    · simp only [List.foldl_cons, fanoutStep, if_pos h1]
      exact ih s evs k h
    · by_cases h2 : c0.alive = true
      · simp only [List.foldl_cons, fanoutStep, if_neg h1, if_pos h2]
        exact ih s _ k h
      · simp only [List.foldl_cons, fanoutStep, if_neg h1, if_neg h2]
        apply ih _ _ k
        rw [dlookup_dpop]
        by_cases hk : k = q0
        · rw [if_pos hk]
        · rw [if_neg hk]
          exact h

theorem fanout_go_kills (m : Msg) (excl : Option String) :
    ∀ (items : List (Option String × Conn)) (s : NodeState) (evs : List Event)
    (k : Option String) (c : Conn), (k, c) ∈ items → c.alive = false →
    ¬(truthy excl = true ∧ k = excl) →
    dlookup (items.foldl (fanoutStep m excl) (s, evs)).1.peers k = none := by
  intro items
  induction items with
  | nil =>
    intro s evs k c h
    simp at h
  | cons hd rest ih =>
    intro s evs k c hmem hdead hnex
    obtain ⟨q0, c0⟩ := hd
    rcases List.mem_cons.mp hmem with heq | htl
    · injection heq with hk hc
      subst hk
      subst hc
      have h2 : ¬ c.alive = true := by
        rw [hdead]
        exact Bool.false_ne_true
      simp only [List.foldl_cons, fanoutStep, if_neg hnex, if_neg h2]
      apply fanout_go_lookup_none
      rw [dlookup_dpop, if_pos rfl]
    · by_cases h1 : truthy excl = true ∧ q0 = excl
      · simp only [List.foldl_cons, fanoutStep, if_pos h1]
        exact ih s evs k c htl hdead hnex
      · by_cases h2 : c0.alive = true
        · simp only [List.foldl_cons, fanoutStep, if_neg h1, if_pos h2]
          exact ih s _ k c htl hdead hnex
        · simp only [List.foldl_cons, fanoutStep, if_neg h1, if_neg h2]
          exact ih _ _ k c htl hdead hnex

theorem sendTo_mem_fanoutEvents (m : Msg) (excl : Option String)
    (items : List (Option String × Conn)) (q : Option String) (c : Conn)
    (hmem : (q, c) ∈ items) (halive : c.alive = true)
    (hnex : ¬(truthy excl = true ∧ q = excl)) :
    Event.sendTo q m ∈ fanoutEvents m excl items := by
  induction items with
  | nil => simp at hmem
  | cons hd rest ih =>
    obtain ⟨q0, c0⟩ := hd
    rcases List.mem_cons.mp hmem with heq | htl
    · injection heq with hk hc
      subst hk
      subst hc
      simp only [fanoutEvents, if_neg hnex, if_pos halive]
      exact List.mem_cons_self _ _
    · by_cases h1 : truthy excl = true ∧ q0 = excl
      · simp only [fanoutEvents, if_pos h1]
        exact ih htl
      · by_cases h2 : c0.alive = true
        · simp only [fanoutEvents, if_neg h1, if_pos h2]
          exact List.mem_cons_of_mem _ (ih htl)
        · simp only [fanoutEvents, if_neg h1, if_neg h2]
          exact List.mem_cons_of_mem _ (ih htl)

theorem sockClose_mem_fanoutEvents (m : Msg) (excl : Option String)
    (items : List (Option String × Conn)) (q : Option String) (c : Conn)
    (hmem : (q, c) ∈ items) (hdead : c.alive = false)
    (hnex : ¬(truthy excl = true ∧ q = excl)) :
    Event.sockClose c.sid ∈ fanoutEvents m excl items := by
  induction items with
  | nil => simp at hmem
  | cons hd rest ih =>
    obtain ⟨q0, c0⟩ := hd
    rcases List.mem_cons.mp hmem with heq | htl
    · injection heq with hk hc
      subst hk
      subst hc
      have h2 : ¬ c.alive = true := by
        rw [hdead]
        exact Bool.false_ne_true
      simp only [fanoutEvents, if_neg hnex, if_neg h2]
      exact List.mem_cons_self _ _
    · by_cases h1 : truthy excl = true ∧ q0 = excl
      · simp only [fanoutEvents, if_pos h1]
        exact ih htl
      · by_cases h2 : c0.alive = true
        · simp only [fanoutEvents, if_neg h1, if_pos h2]
          exact List.mem_cons_of_mem _ (ih htl)
        · simp only [fanoutEvents, if_neg h1, if_neg h2]
          exact List.mem_cons_of_mem _ (ih htl)

theorem mem_fanoutEvents_sendTo (m : Msg) (excl : Option String)
    (items : List (Option String × Conn)) (q : Option String) (mm : Msg)
    (h : Event.sendTo q mm ∈ fanoutEvents m excl items) :
    mm = m ∧ ¬(truthy excl = true ∧ q = excl) := by
  induction items with
  | nil => simp [fanoutEvents] at h
  | cons hd rest ih =>
    obtain ⟨q0, c0⟩ := hd
    by_cases h1 : truthy excl = true ∧ q0 = excl
    · simp only [fanoutEvents, if_pos h1] at h
      exact ih h
    · by_cases h2 : c0.alive = true
      · simp only [fanoutEvents, if_neg h1, if_pos h2, List.mem_cons] at h
        rcases h with heq | htl
        · injection heq with hq hm
          subst hq
          subst hm
          exact ⟨rfl, h1⟩
        · exact ih htl
      · simp only [fanoutEvents, if_neg h1, if_neg h2, List.mem_cons] at h
        rcases h with heq | htl
        · exact absurd heq (by simp)
        · exact ih htl

theorem countDeliver_fanoutEvents (m : Msg) (excl : Option String)
    (items : List (Option String × Conn)) :
    countDeliver (fanoutEvents m excl items) = 0 := by
  induction items with
  | nil => simp [fanoutEvents, countDeliver]
  | cons hd rest ih =>
    obtain ⟨q0, c0⟩ := hd
    by_cases h1 : truthy excl = true ∧ q0 = excl
    · simp only [fanoutEvents, if_pos h1]
      exact ih
    · by_cases h2 : c0.alive = true
      · simp only [fanoutEvents, if_neg h1, if_pos h2]
        simpa [countDeliver] using ih
      · simp only [fanoutEvents, if_neg h1, if_neg h2]
        simpa [countDeliver] using ih

theorem countDeliver_append (a b : List Event) :
    countDeliver (a ++ b) = countDeliver a + countDeliver b := by
  simp [countDeliver, List.countP_append]

theorem deliver_not_mem_fanoutEvents (m : Msg) (excl : Option String)
    (items : List (Option String × Conn)) (a b c : Option String) :
    Event.deliver a b c ∉ fanoutEvents m excl items := by
  intro hmem
  have h0 := countDeliver_fanoutEvents m excl items
  have := List.countP_eq_zero.mp h0 _ hmem
  simp at this

theorem sdel_not_mem {α : Type} [DecidableEq α] (l : List α) (x : α)
    (h : x ∉ l) : sdel l x = l := by
  induction l with
  | nil => rfl
  | cons a t ih =>
    have hax : ¬ a = x := fun hh => h (hh ▸ List.mem_cons_self a t)
    simp only [sdel, if_neg hax]
    rw [ih (fun hh => h (List.mem_cons_of_mem a hh))]

theorem pyOr0_some (h : Int) : pyOr0 (some h) = h := by
  simp only [pyOr0]
  by_cases h0 : h = 0
  · rw [if_pos h0, h0]
  · rw [if_neg h0]

theorem truthy_some (p : String) (hp : ¬ p = "") : truthy (some p) = true := by
  simp [truthy, hp]

theorem mark_seen_peers (s : NodeState) (i : String) :
    (mark_seen s i).peers = s.peers := by
  by_cases h : i ∈ s.seen
  · simp [mark_seen, h]
  · simp [mark_seen, h]

theorem mark_seen_mem (s : NodeState) (i : String) :
    i ∈ (mark_seen s i).seen := by
  by_cases h : i ∈ s.seen
  · simp [mark_seen, h]
  · simp [mark_seen, h]

theorem mark_seen_fresh (s : NodeState) (i : String) (h : i ∉ s.seen) :
    mark_seen s i = { s with seen := i :: s.seen } := by
  rw [mark_seen, if_neg h]

theorem fanout_snd (s : NodeState) (m : Msg) (excl : Option String) :
    (fanout s m excl).2 = fanoutEvents m excl s.peers := by
  rw [fanout, fanout_go_events]
  simp

theorem fanout_fst_eta (s : NodeState) (m : Msg) (excl : Option String) :
    (fanout s m excl).1 = { s with peers := (fanout s m excl).1.peers } := by
  rw [fanout, fanout_go_state_eta]

theorem fanout_fst_seen (s : NodeState) (m : Msg) (excl : Option String) :
    (fanout s m excl).1.seen = s.seen := by
  rw [fanout_fst_eta]

theorem fanout_fst_allAlive (s : NodeState) (m : Msg) (excl : Option String)
    (h : ∀ it ∈ s.peers, it.2.alive = true) : (fanout s m excl).1 = s := by
  rw [fanout]
  exact fanout_go_state_allAlive m excl s.peers s [] h

theorem handle_message_novel (s : NodeState) (m : Msg) (fp : Option String)
    (i : String) (ht : m.type = some "chat") (hi : m.id = some i)
    (hne : ¬ i = "") (hfresh : i ∉ s.seen) :
    handle_message s m fp =
      ((fanout { s with seen := i :: s.seen }
          { m with hops := some (pyOr0 m.hops + 1) } fp).1,
       (if s.hasOnMessage = true ∧ m.channel = some s.channel then
          [Event.deliver m.channel m.fromU m.text] else [])
        ++ fanoutEvents { m with hops := some (pyOr0 m.hops + 1) } fp s.peers) := by
  have hseen : is_seen s i = false := by
    simp [is_seen, hfresh]
  have hcond : ¬ (i = "" ∨ is_seen s i = true) := by
    rintro (h | h)
    · exact hne h
    · rw [hseen] at h
      exact Bool.false_ne_true h
  simp only [handle_message, ht, hi, if_pos rfl]
  rw [if_neg hcond, mark_seen_fresh s i hfresh, fanout_snd, if_pos trivial]

theorem handle_message_seen (s : NodeState) (m : Msg) (fp : Option String)
    (i : String) (ht : m.type = some "chat") (hi : m.id = some i)
    (hseen : i ∈ s.seen) : handle_message s m fp = (s, []) := by
  have h : is_seen s i = true := by
    simp [is_seen, hseen]
  simp [handle_message, ht, hi, h]

/-! Claim theorems. -/

/-- C10: a chat envelope whose `id` field is missing, null, or empty is
dropped entirely by `_handle_message`: it is never delivered to
`on_message`, never added to the seen set, and never forwarded to any
peer — the state is unchanged and no event is produced. -/
theorem chat_blank_id_dropped (s : NodeState) (m : Msg) (p : Option String)
    (ht : m.type = some "chat") (hid : m.id = none ∨ m.id = some "") :
    handle_message s m p = (s, []) := by
  rcases hid with h | h
  · simp [handle_message, ht, h]
  · simp [handle_message, ht, h]

/-- C10 witness: a chat envelope with no `id` is dropped on a concrete
state. -/
theorem chat_blank_id_dropped_w :
    handle_message w_state w_blank none = (w_state, []) :=
  chat_blank_id_dropped w_state w_blank none rfl (Or.inl rfl)

/-- C6: an inbound connection whose first line is not a well-formed hello
for this node's channel is never registered: the peer session leaves the
node state exactly as it was (no registry or username-index entry) and
only closes the socket. -/
theorem bad_hello_no_registration (s : NodeState) (c : Conn)
    (first : WireLine) (rest : List WireLine)
    (hbad : hello_ok s first = false) :
    peer_conn_loop s c first rest = (s, [Event.sockClose c.sid]) := by
  cases first with
  | eof => rfl
  | badJson => rfl
  | msg m =>
    have hnot : ¬ (m.type = some "hello" ∧ m.channel = some s.channel) := by
      simp only [hello_ok, decide_eq_false_iff_not] at hbad
      exact hbad
    simp [peer_conn_loop, hnot]

/-- C6 witness: a hello for a different channel leaves a concrete node's
state untouched and closes the socket. -/
theorem bad_hello_no_registration_w :
    peer_conn_loop w_state w_conn (WireLine.msg w_bad_hello) []
      = (w_state, [Event.sockClose w_conn.sid]) :=
  bad_hello_no_registration w_state w_conn (WireLine.msg w_bad_hello) []
    (by decide)

/-- C9: `_connect_to_peer` is a no-op when the address is already in the
pending-connect set; otherwise it adds the pair to the set before dialing
(the pair is pending in the state the dial observes) and removes it when
the dial finishes on every path — `dial_ok` true or false — leaving the
state exactly as before the call. -/
theorem connect_pending_contract (s : NodeState) (host : String) (port : Int)
    (ok : Bool) :
    ((host, port) ∈ s.connecting → connect_to_peer s host port ok = (s, []))
    ∧ ((host, port) ∉ s.connecting →
        (host, port) ∈ (add_pending s host port).connecting
        ∧ Event.dial host port ∈ (connect_to_peer s host port ok).2
        ∧ (host, port) ∉ (connect_to_peer s host port ok).1.connecting
        ∧ (connect_to_peer s host port ok).1 = s) := by
  constructor
  · intro h
    simp [connect_to_peer, h]
  · intro h
    have hdel : sdel ((host, port) :: s.connecting) (host, port) = s.connecting := by
      have h1 : sdel ((host, port) :: s.connecting) (host, port)
          = sdel s.connecting (host, port) := by
        simp [sdel]
      rw [h1, sdel_not_mem s.connecting (host, port) h]
    refine ⟨?_, ?_, ?_, ?_⟩
    · simp [add_pending, h]
    · simp [connect_to_peer, h]
    · simp only [connect_to_peer, if_neg h, remove_pending, add_pending]
      rw [hdel]
      exact h
    · simp only [connect_to_peer, if_neg h, remove_pending, add_pending]
      rw [hdel]

/-- C9 witness: on a concrete state with an empty pending set, the dial
target is pending in the state the dial observes, a dial happens, and
afterwards the pending marker is gone and the state is as before. -/
theorem connect_pending_contract_w :
    ("h1", (4000 : Int)) ∈ (add_pending w_state "h1" 4000).connecting
    ∧ Event.dial "h1" 4000 ∈ (connect_to_peer w_state "h1" 4000 true).2
    ∧ ("h1", (4000 : Int)) ∉ (connect_to_peer w_state "h1" 4000 true).1.connecting
    ∧ (connect_to_peer w_state "h1" 4000 true).1 = w_state :=
  (connect_pending_contract w_state "h1" 4000 true).2 (by decide)

/-- C5: when `_fanout` finds a dead peer (a send to it fails), that peer's
key is absent from the peer map when `_fanout` returns (so any subsequent
`status` snapshot is taken over a registry without it), its socket is
closed, and every other live non-excluded peer in the snapshot still
receives the envelope. -/
theorem fanout_dead_peer_evicted (s : NodeState) (m : Msg)
    (excl : Option String) (d : Option String) (c : Conn)
    (hmem : (d, c) ∈ s.peers) (hdead : c.alive = false)
    (hnex : ¬(truthy excl = true ∧ d = excl)) :
    dlookup (fanout s m excl).1.peers d = none
    ∧ Event.sockClose c.sid ∈ (fanout s m excl).2
    ∧ (∀ q cq, (q, cq) ∈ s.peers → cq.alive = true →
        ¬(truthy excl = true ∧ q = excl) →
        Event.sendTo q m ∈ (fanout s m excl).2) := by
  refine ⟨?_, ?_, ?_⟩
  · rw [fanout]
    exact fanout_go_kills m excl s.peers s [] d c hmem hdead hnex
  · rw [fanout_snd]
    exact sockClose_mem_fanoutEvents m excl s.peers d c hmem hdead hnex
  · intro q cq hq hal hnq
    rw [fanout_snd]
    exact sendTo_mem_fanoutEvents m excl s.peers q cq hq hal hnq

/-- C5 witness: on a concrete registry with one live and one dead peer, the
dead peer is evicted, its socket closed, and the live peer still receives
the envelope. -/
theorem fanout_dead_peer_evicted_w :
    dlookup (fanout w_state5 w_chat none).1.peers (some "c1") = none
    ∧ Event.sockClose w_conn_dead.sid ∈ (fanout w_state5 w_chat none).2
    ∧ Event.sendTo (some "b1") w_chat ∈ (fanout w_state5 w_chat none).2 := by
  have h := fanout_dead_peer_evicted w_state5 w_chat none (some "c1") w_conn_dead
    (by decide) rfl (by decide)
  exact ⟨h.1, h.2.1, h.2.2 (some "b1") w_conn (by decide) rfl (by decide)⟩

/-- C1: processing two inbound chat envelopes with the same id — via any two
inbound connections, or a repeat on the same one — invokes the `on_message`
callback exactly once: the second processing finds the id in the seen set
and returns with no delivery, no forwarding, and no state change. -/
theorem chat_dedup_idempotent (s : NodeState) (m1 m2 : Msg)
    (p1 p2 : Option String) (i : String)
    (ht1 : m1.type = some "chat") (ht2 : m2.type = some "chat")
    (hi1 : m1.id = some i) (hi2 : m2.id = some i)
    (hne : ¬ i = "") (hfresh : i ∉ s.seen)
    (hch : m1.channel = some s.channel) (hcb : s.hasOnMessage = true) :
    countDeliver ((handle_message s m1 p1).2
        ++ (handle_message (handle_message s m1 p1).1 m2 p2).2) = 1
    ∧ handle_message (handle_message s m1 p1).1 m2 p2
        = ((handle_message s m1 p1).1, []) := by
  have h1 := handle_message_novel s m1 p1 i ht1 hi1 hne hfresh
  have hseen1 : i ∈ (handle_message s m1 p1).1.seen := by
    rw [h1]
    rw [fanout_fst_seen]
    exact List.mem_cons_self i s.seen
  have h2 := handle_message_seen (handle_message s m1 p1).1 m2 p2 i ht2 hi2 hseen1
  refine ⟨?_, h2⟩
  rw [h2, h1]
  rw [countDeliver_append, countDeliver_append]
  rw [if_pos ⟨hcb, hch⟩, countDeliver_fanoutEvents]
  rfl

/-- C1 witness: the same envelope handled twice on a concrete node, once
from each of two connections, delivers exactly once and the second
processing is a no-op. -/
theorem chat_dedup_idempotent_w :
    countDeliver ((handle_message w_state w_chat (some "b1")).2
        ++ (handle_message (handle_message w_state w_chat (some "b1")).1
              w_chat (some "b2")).2) = 1
    ∧ handle_message (handle_message w_state w_chat (some "b1")).1
        w_chat (some "b2")
      = ((handle_message w_state w_chat (some "b1")).1, []) :=
  chat_dedup_idempotent w_state w_chat w_chat (some "b1") (some "b2") "mid1"
    rfl rfl rfl rfl (by decide) (by decide) rfl rfl

/-- C2: a novel chat envelope (id not yet seen) arriving from peer P is
marked seen, its `hops` field is incremented by exactly one on every copy
sent out, the re-serialized envelope goes to every currently registered
peer except P and never back to P, and `on_message` fires if and only if
the envelope's channel equals the node's channel. -/
theorem novel_chat_flood (s : NodeState) (m : Msg) (p i : String) (h : Int)
    (ht : m.type = some "chat") (hi : m.id = some i) (hne : ¬ i = "")
    (hfresh : i ∉ s.seen) (hhops : m.hops = some h) (hp : ¬ p = "")
    (halive : ∀ it ∈ s.peers, it.2.alive = true)
    (hcb : s.hasOnMessage = true) :
    (handle_message s m (some p)).1 = { s with seen := i :: s.seen }
    ∧ (handle_message s m (some p)).2
        = (if m.channel = some s.channel then
             [Event.deliver m.channel m.fromU m.text] else [])
          ++ fanoutEvents { m with hops := some (h + 1) } (some p) s.peers
    ∧ (∀ q c, (q, c) ∈ s.peers → ¬ q = some p →
        Event.sendTo q { m with hops := some (h + 1) }
          ∈ (handle_message s m (some p)).2)
    ∧ (∀ mm, Event.sendTo (some p) mm ∉ (handle_message s m (some p)).2)
    ∧ (∀ q mm, Event.sendTo q mm ∈ (handle_message s m (some p)).2 →
        mm.hops = some (h + 1))
    ∧ (Event.deliver m.channel m.fromU m.text ∈ (handle_message s m (some p)).2
        ↔ m.channel = some s.channel) := by
  have hm2 : { m with hops := some (pyOr0 m.hops + 1) }
      = { m with hops := some (h + 1) } := by
    rw [hhops, pyOr0_some]
  have hbase := handle_message_novel s m (some p) i ht hi hne hfresh
  rw [hm2] at hbase
  have htp : truthy (some p) = true := truthy_some p hp
  have hfst : (handle_message s m (some p)).1 = { s with seen := i :: s.seen } := by
    rw [hbase]
    exact fanout_fst_allAlive _ _ _ halive
  have hsnd : (handle_message s m (some p)).2
      = (if m.channel = some s.channel then
           [Event.deliver m.channel m.fromU m.text] else [])
        ++ fanoutEvents { m with hops := some (h + 1) } (some p) s.peers := by
    rw [hbase]
    rw [hcb]
    simp only [true_and]
  refine ⟨hfst, hsnd, ?_, ?_, ?_, ?_⟩
  · intro q c hqmem hqp
    rw [hsnd]
    apply List.mem_append_right
    refine sendTo_mem_fanoutEvents _ _ _ q c hqmem (halive (q, c) hqmem) ?_
    rintro ⟨_, hq⟩
    exact hqp hq
  · intro mm hmm
    rw [hsnd] at hmm
    rcases List.mem_append.mp hmm with hin | hin
    · by_cases hc : m.channel = some s.channel
      · rw [if_pos hc] at hin
        rcases List.mem_cons.mp hin with heq | hnil
        · cases heq
        · cases hnil
      · rw [if_neg hc] at hin
        cases hin
    · have := mem_fanoutEvents_sendTo _ _ _ _ _ hin
      exact this.2 ⟨htp, rfl⟩
  · intro q mm hmm
    rw [hsnd] at hmm
    rcases List.mem_append.mp hmm with hin | hin
    · by_cases hc : m.channel = some s.channel
      · rw [if_pos hc] at hin
        rcases List.mem_cons.mp hin with heq | hnil
        · cases heq
        · cases hnil
      · rw [if_neg hc] at hin
        cases hin
    · have := mem_fanoutEvents_sendTo _ _ _ _ _ hin
      rw [this.1]
  · constructor
    · intro hmem
      by_contra hc
      rw [hsnd, if_neg hc] at hmem
      rcases List.mem_append.mp hmem with hin | hin
      · cases hin
      · exact deliver_not_mem_fanoutEvents _ _ _ _ _ _ hin
    · intro hc
      rw [hsnd, if_pos hc]
      apply List.mem_append_left
      exact List.mem_cons_self _ _

/-- C2 witness: a fresh envelope with `hops = 0` arriving from `b2` on a
concrete node with one registered peer `b1` is delivered, forwarded to
`b1` with `hops = 1`, and never sent back to `b2`. -/
theorem novel_chat_flood_w :
    (handle_message w_state w_chat (some "b2")).1
      = { w_state with seen := "mid1" :: w_state.seen }
    ∧ Event.sendTo (some "b1") { w_chat with hops := some 1 }
        ∈ (handle_message w_state w_chat (some "b2")).2
    ∧ (Event.deliver w_chat.channel w_chat.fromU w_chat.text
        ∈ (handle_message w_state w_chat (some "b2")).2
        ↔ w_chat.channel = some w_state.channel) := by
  have h := novel_chat_flood w_state w_chat "b2" "mid1" 0
    rfl rfl (by decide) (by decide) rfl (by decide) (by decide) rfl
  exact ⟨h.1, h.2.2.1 (some "b1") w_conn (by decide) (by decide), h.2.2.2.2.2⟩

/-- C4: `send(text)` builds a chat envelope with the freshly generated id
and `hops = 0`, adds the id to the seen set before any fanout (so the id
is seen no later than the first fanout or local delivery), fans out to all
current connections, then invokes `on_message` synchronously after the
fanout; if the message later loops back, it is dropped. -/
theorem send_marks_before_fanout (s : NodeState) (i : String) (now : Int)
    (text : String) (hcb : s.hasOnMessage = true) :
    (chat_envelope s i now text).id = some i
    ∧ (chat_envelope s i now text).hops = some 0
    ∧ (send s i now text).2
        = fanoutEvents (chat_envelope s i now text) none s.peers
          ++ [Event.deliver (some s.channel) (some s.username) (some text)]
    ∧ i ∈ (send s i now text).1.seen
    ∧ (∀ m' p, m'.type = some "chat" → m'.id = some i →
        handle_message (send s i now text).1 m' p = ((send s i now text).1, [])) := by
  have hseen : i ∈ (send s i now text).1.seen := by
    simp only [send]
    rw [fanout_fst_seen]
    exact mark_seen_mem s i
  refine ⟨rfl, rfl, ?_, hseen, ?_⟩
  · simp only [send]
    rw [fanout_snd, mark_seen_peers, if_pos hcb]
  · intro m' p ht hi
    exact handle_message_seen _ m' p i ht hi hseen

/-- C4 witness: a concrete `send` fans the envelope (id `new1`, hops 0) to
the registered peer, delivers locally afterwards, records the id as seen,
and a loop-back of the same id is dropped. -/
theorem send_marks_before_fanout_w :
    (chat_envelope w_state "new1" 5 "yo").id = some "new1"
    ∧ (chat_envelope w_state "new1" 5 "yo").hops = some 0
    ∧ (send w_state "new1" 5 "yo").2
        = fanoutEvents (chat_envelope w_state "new1" 5 "yo") none w_state.peers
          ++ [Event.deliver (some w_state.channel) (some w_state.username)
                (some "yo")]
    ∧ "new1" ∈ (send w_state "new1" 5 "yo").1.seen
    ∧ handle_message (send w_state "new1" 5 "yo").1
        { w_chat with id := some "new1" } (some "b1")
      = ((send w_state "new1" 5 "yo").1, []) := by
  have h := send_marks_before_fanout w_state "new1" 5 "yo" rfl
  exact ⟨h.1, h.2.1, h.2.2.1, h.2.2.2.1,
    h.2.2.2.2 { w_chat with id := some "new1" } (some "b1") rfl rfl⟩

/-- C7: `send_control` and `send_direct` return true exactly when a live
registered session for the target username is found; in particular, when
the username has no entry in the username index, or its peer id has no
entry in the peer map, they return false and produce no network write. -/
theorem directed_send_contract (s : NodeState) (to_username ctrl text : String)
    (data : Option (List (String × String))) (now now2 : Int) :
    ((send_control s to_username ctrl data now).1 = live_session s to_username)
    ∧ ((send_direct s to_username text now2).1 = live_session s to_username)
    ∧ (dlookup s.user_to_peer to_username = none →
        send_control s to_username ctrl data now = (false, [])
        ∧ send_direct s to_username text now2 = (false, []))
    ∧ (∀ pid, dlookup s.user_to_peer to_username = some pid →
        dlookup s.peers pid = none →
        send_control s to_username ctrl data now = (false, [])
        ∧ send_direct s to_username text now2 = (false, [])) := by
  refine ⟨?_, ?_, ?_, ?_⟩
  · cases hu : dlookup s.user_to_peer to_username with
    | none => simp [send_control, live_session, hu]
    | some pid =>
      cases htp : truthy pid with
      | false => simp [send_control, live_session, hu, htp]
      | true =>
        cases hpe : dlookup s.peers pid with
        | none => simp [send_control, live_session, hu, htp, hpe]
        | some c =>
          cases hal : c.alive with
          | false => simp [send_control, live_session, hu, htp, hpe, hal]
          | true => simp [send_control, live_session, hu, htp, hpe, hal]
  · cases hu : dlookup s.user_to_peer to_username with
    | none => simp [send_direct, live_session, hu]
    | some pid =>
      cases htp : truthy pid with
      | false => simp [send_direct, live_session, hu, htp]
      | true =>
        cases hpe : dlookup s.peers pid with
        | none => simp [send_direct, live_session, hu, htp, hpe]
        | some c =>
          cases hal : c.alive with
          | false => simp [send_direct, live_session, hu, htp, hpe, hal]
          | true => simp [send_direct, live_session, hu, htp, hpe, hal]
  · intro hu
    constructor
    · simp [send_control, hu]
    · simp [send_direct, hu]
  · intro pid hu hpe
    cases htp : truthy pid with
    | false =>
      constructor
      · simp [send_control, hu, htp]
      · simp [send_direct, hu, htp]
    | true =>
      constructor
      · simp [send_control, hu, htp, hpe]
      · simp [send_direct, hu, htp, hpe]

/-- C7 witness: on a node with an empty registry, a directed control
message and a directed chat to `bob` both return false with no network
write. -/
theorem directed_send_contract_w :
    send_control w_state7 "bob" "ping" none 0 = (false, [])
    ∧ send_direct w_state7 "bob" "hi" 0 = (false, []) :=
  (directed_send_contract w_state7 "bob" "ping" "hi" none 0 0).2.2.1 (by decide)

/-- C8 counterexample: a discovery packet that parses as a `discover`
envelope with matching channel and a foreign `peer_id`, but whose
announced `tcp_port` is `0`, triggers no connection attempt — refuting the
claim that every such packet triggers one. -/
theorem discovery_matching_packet_no_dial :
    d_pkt.type = some "discover"
    ∧ d_pkt.channel = some ce_state.channel
    ∧ ¬ d_pkt.peer_id = some ce_state.peer_id
    ∧ discovery_dial_target ce_state (some d_pkt) "10.0.0.5" = none := by
  decide

/-- C8 amended: one iteration of the discovery receive loop triggers a
connection attempt to `(sender_host, announced_tcp_port)` exactly when the
packet parses as a `discover` envelope whose channel equals this node's
channel, whose `peer_id` differs from this node's own, and whose
`tcp_port` is a positive integer; packets failing to parse, mismatching
the channel, carrying the node's own `peer_id`, or lacking a positive
integer `tcp_port` trigger none. -/
theorem discovery_dial_characterization (s : NodeState) (pkt : Option Msg)
    (host host2 : String) (p : Int) :
    discovery_dial_target s pkt host = some (host2, p)
    ↔ (host2 = host ∧ ∃ m, pkt = some m ∧ m.type = some "discover"
        ∧ m.channel = some s.channel ∧ ¬ m.peer_id = some s.peer_id
        ∧ m.tcp_port = some p ∧ 0 < p) := by
  cases pkt with
  | none => simp [discovery_dial_target]
  | some m =>
    by_cases hc : m.type = some "discover" ∧ m.channel = some s.channel ∧
        ¬ m.peer_id = some s.peer_id
    · cases htp : m.tcp_port with
      | none =>
        simp only [discovery_dial_target, if_pos hc, htp]
        constructor
        · intro h
          cases h
        · rintro ⟨rfl, m', hm, _, _, _, hport, _⟩
          injection hm with hm
          subst hm
          rw [htp] at hport
          cases hport
      | some q =>
        by_cases hq : q > 0
        · simp only [discovery_dial_target, if_pos hc, htp, if_pos hq]
          constructor
          · intro h
            injection h with h
            injection h with h1 h2
            exact ⟨h1.symm, m, rfl, hc.1, hc.2.1, hc.2.2, h2 ▸ htp, h2 ▸ hq⟩
          · rintro ⟨rfl, m', hm, _, _, _, hport, hpos⟩
            injection hm with hm
            subst hm
            rw [htp] at hport
            injection hport with hport
            rw [hport]
        · simp only [discovery_dial_target, if_pos hc, htp, if_neg hq]
          constructor
          · intro h
            cases h
          · rintro ⟨rfl, m', hm, _, _, _, hport, hpos⟩
            injection hm with hm
            subst hm
            rw [htp] at hport
            injection hport with hport
            exact absurd (hport ▸ hpos) hq
    · simp only [discovery_dial_target, if_neg hc]
      constructor
      · intro h
        cases h
      · rintro ⟨rfl, m', hm, h1, h2, h3, _, _⟩
        injection hm with hm
        subst hm
        exact absurd ⟨h1, h2, h3⟩ hc

/-- C8 amended witness: a concrete matching packet announcing port 9000
yields a dial to `(sender_host, 9000)`. -/
theorem discovery_dial_characterization_w :
    discovery_dial_target ce_state (some d_pkt_good) "10.0.0.5"
      = some ("10.0.0.5", 9000) :=
  (discovery_dial_characterization ce_state (some d_pkt_good)
      "10.0.0.5" "10.0.0.5" 9000).mpr
    ⟨rfl, d_pkt_good, rfl, rfl, rfl, by decide, rfl, by decide⟩

/-- C3 counterexample: on a node whose only registered peer `p1` (indexed
under username `bob`) has a dead socket, the invariant holds before, but
both `_fanout`'s dead-peer eviction and `stop` remove `p1` from the peer
map while leaving the `bob → p1` username-index entry, so the invariant is
not preserved by every registry-mutating operation. -/
theorem uname_index_not_preserved :
    uname_index_consistent ce_state
    ∧ ¬ uname_index_consistent (fanout ce_state w_chat none).1
    ∧ ¬ uname_index_consistent (stop ce_state).1 := by
  refine ⟨?_, ?_, ?_⟩
  · intro u p hup
    by_cases hu : "bob" = u
    · have hp : p = some "p1" := by
        have hl : dlookup ce_state.user_to_peer u = some (some "p1") := by
          rw [← hu]
          decide
        rw [hl] at hup
        injection hup with h
        exact h.symm
      subst hp
      decide
    · exfalso
      have hl : dlookup ce_state.user_to_peer u = none := by
        show dlookup [("bob", some "p1")] u = none
        simp [dlookup, hu]
      rw [hl] at hup
      cases hup
  · intro hinv
    have h := hinv "bob" (some "p1") (by decide)
    exact absurd h (by decide)
  · intro hinv
    have h := hinv "bob" (some "p1") (by decide)
    exact absurd h (by decide)

/-- C3 amended: session registration always preserves the invariant that
the username index only maps to peer ids present in the peer map, and
session teardown preserves it provided the username index agrees with the
peer-username map and has no empty-username entry; by the counterexample,
fanout dead-peer eviction and `stop` remove peer-map entries without
updating the username index and do not preserve it. -/
theorem register_teardown_preserve_index (s : NodeState)
    (pid uname : Option String) (c : Conn) (qid : Option String)
    (hinv : uname_index_consistent s) :
    uname_index_consistent (register_peer s pid uname c)
    ∧ (uname_index_inverse s → no_empty_uname s →
        uname_index_consistent (session_teardown s qid)) := by
  constructor
  · intro u p hup
    have hpeers : (register_peer s pid uname c).peers = dinsert s.peers pid c := by
      cases uname with
      | none => rfl
      | some u' =>
        simp only [register_peer]
        by_cases hu' : u' ≠ ""
        · rw [if_pos hu']
        · rw [if_neg hu']
    have hutp : p = pid ∨ dlookup s.user_to_peer u = some p := by
      cases huname : uname with
      | none =>
        rw [huname] at hup
        exact Or.inr hup
      | some u' =>
        rw [huname] at hup
        by_cases hu' : u' ≠ ""
        · have heq : (register_peer s pid (some u') c).user_to_peer
              = dinsert s.user_to_peer u' pid := by
            simp only [register_peer]
            rw [if_pos hu']
          rw [heq, dlookup_dinsert] at hup
          by_cases huu : u = u'
          · rw [if_pos huu] at hup
            injection hup with h
            exact Or.inl h.symm
          · rw [if_neg huu] at hup
            exact Or.inr hup
        · have heq : (register_peer s pid (some u') c).user_to_peer
              = s.user_to_peer := by
            simp only [register_peer]
            rw [if_neg hu']
          rw [heq] at hup
          exact Or.inr hup
    by_cases hpp : p = pid
    · rw [hpeers, dlookup_dinsert, if_pos hpp]
      rfl
    · rcases hutp with h | h
      · exact absurd h hpp
      · rw [hpeers, dlookup_dinsert, if_neg hpp]
        exact hinv u p h
  · intro hinv2 hinv3
    by_cases htq : truthy qid = true
    · intro u p hup
      cases hpu : dlookup s.peer_usernames qid with
      | none =>
        have hres : session_teardown s qid = { s with peers := dpop s.peers qid } := by
          simp only [session_teardown]
          rw [if_pos htq]
          rw [hpu]
        rw [hres] at hup
        dsimp only at hup
        have hppid : ¬ p = qid := by
          intro hpq
          have h2 := hinv2 u p hup
          rw [hpq, hpu] at h2
          cases h2
        rw [hres]
        dsimp only
        rw [dlookup_dpop, if_neg hppid]
        exact hinv u p hup
      | some uname0 =>
        by_cases hcond : uname0 ≠ "" ∧ dlookup s.user_to_peer uname0 = some qid
        · have hres : session_teardown s qid =
              { s with peers := dpop s.peers qid,
                       peer_usernames := dpop s.peer_usernames qid,
                       user_to_peer := dpop s.user_to_peer uname0 } := by
            simp only [session_teardown]
            rw [if_pos htq]
            rw [hpu]
            dsimp only
            rw [if_pos hcond]
          rw [hres] at hup
          dsimp only at hup
          rw [dlookup_dpop] at hup
          by_cases huu : u = uname0
          · rw [if_pos huu] at hup
            cases hup
          · rw [if_neg huu] at hup
            have hppid : ¬ p = qid := by
              intro hpq
              have h2 := hinv2 u p hup
              rw [hpq, hpu] at h2
              injection h2 with h2
              exact huu h2.symm
            rw [hres]
            dsimp only
            rw [dlookup_dpop, if_neg hppid]
            exact hinv u p hup
        · have hres : session_teardown s qid =
              { s with peers := dpop s.peers qid,
                       peer_usernames := dpop s.peer_usernames qid } := by
            simp only [session_teardown]
            rw [if_pos htq]
            rw [hpu]
            dsimp only
            rw [if_neg hcond]
          rw [hres] at hup
          dsimp only at hup
          have hppid : ¬ p = qid := by
            intro hpq
            have h2 := hinv2 u p hup
            rw [hpq, hpu] at h2
            injection h2 with h2
            subst h2
            rw [hpq] at hup
            have hemp : uname0 = "" := by
              by_contra hne
              exact hcond ⟨hne, hup⟩
            rw [hemp] at hup
            have h3 : dlookup s.user_to_peer "" = none := hinv3
            rw [h3] at hup
            cases hup
          rw [hres]
          dsimp only
          rw [dlookup_dpop, if_neg hppid]
          exact hinv u p hup
    · have hres : session_teardown s qid = s := by
        simp only [session_teardown]
        rw [if_neg htq]
      rw [hres]
      exact hinv

/-- C3 amended witness: on a node with an empty registry, registering peer
`b1` under `bob` preserves the invariant, as does the teardown of `b1`. -/
theorem register_teardown_preserve_index_w :
    uname_index_consistent (register_peer w_state7 (some "b1") (some "bob") w_conn)
    ∧ (uname_index_inverse w_state7 → no_empty_uname w_state7 →
        uname_index_consistent (session_teardown w_state7 (some "b1"))) :=
  register_teardown_preserve_index w_state7 (some "b1") (some "bob") w_conn
    (some "b1") (fun u p h => by simp [w_state7, dlookup] at h)

end P2P
